import Mathlib

/-!
# Verification of the feedback-digest tool (scripts/feedback_digest.py)

A shallow embedding of the decryption / aggregation core of the feedback
digest script, together with theorems settling the specified properties.

Modelling conventions:
* Python `bytes` values are `List Nat` (each element a byte value).
* Python strings that are only inspected character by character (bech32
  input) are `List Char`; Python `str.lower`/`str.upper` are modelled by
  `Char.toLower`/`Char.toUpper`, which agree with Python on ASCII input
  (all input the decoder can accept is ASCII).
* Exceptions are modelled with `Except`/`Option` result types.
* External cryptographic primitives that the script calls

  - `hashlib.sha256` (via `hmac.new`),
  - `ChaCha20Poly1305.decrypt`,
  - `secp256k1` ECDH (`get_conversation_key`),

  are abstracted as function parameters; every theorem quantifies over
  them, so each theorem in particular holds for the real primitives.
* JSON values (`json.loads` results) are the inductive `JValue`;
  the parser itself (`json.loads`) is likewise a function parameter.
-/

/-! ## Identity codec: bech32 decoding (source lines 43-81) -/

/-- The bech32 data charset, from `BECH32_ALPHABET` in the source. -/
def BECH32_ALPHABET : List Char :=
  ['q','p','z','r','y','9','x','8','g','f','2','t','v','d','w','0',
   's','3','j','n','5','4','k','h','c','e','6','m','u','a','7','l']

/-- `BECH32_ALPHABET.find(c)` from the source: index of `c`, or `-1`. -/
def bech32CharVal (c : Char) : Int :=
  match BECH32_ALPHABET.findIdx? (fun a => a == c) with
  | some i => (i : Int)
  | none => -1

/-- Python `bech.rfind('1')`: the index of the last `'1'`, `none` when absent
(the source's `-1`). -/
def rfindOne : List Char → Option Nat
  | [] => none
  | c :: rest =>
    match rfindOne rest with
    | some i => some (i + 1)
    | none => if c = '1' then some 0 else none

/-- The 5-bit to 8-bit regrouping loop of `bech32_decode` (source lines
58-66).  The Python inner `while bits >= 8` executes at most once per
iteration, because `bits` stays below 8 between iterations and grows by 5,
so it is rendered as a single conditional. -/
def fiveToEightAux : List Nat → Nat → Nat → List Nat → List Nat
  | [], _, _, result => result
  | v :: rest, acc, bits, result =>
    let acc2 := (acc <<< 5) ||| v
    let bits2 := bits + 5
    if 8 ≤ bits2 then
      fiveToEightAux rest acc2 (bits2 - 8) (result ++ [(acc2 >>> (bits2 - 8)) &&& 255])
    else
      fiveToEightAux rest acc2 bits2 result

/-- The distinct `ValueError`s that `bech32_decode` / `nsec_to_hex` raise
(the spec's `FormatError` cases). -/
inductive Bech32Error where
  | mixedCase
  | invalidSeparator
  | invalidChar
  | wrongHrp (hrp : List Char)
  deriving DecidableEq

/-- `bech32_decode` (source lines 45-67).  Returns the human-readable part
and the regrouped data bytes.  The last six data characters are dropped by
`data[:-6]` (the source comment says "Exclude checksum") and are never
verified. -/
def bech32_decode (bech : List Char) : Except Bech32Error (List Char × List Nat) :=
  if bech ≠ bech.map Char.toLower ∧ bech ≠ bech.map Char.toUpper then
    .error .mixedCase
  else
    let b := bech.map Char.toLower
    match rfindOne b with
    | none => .error .invalidSeparator
    | some pos =>
      if pos < 1 ∨ pos + 7 > b.length then .error .invalidSeparator
      else
        let hrp := b.take pos
        let data := (b.drop (pos + 1)).map bech32CharVal
        if (-1 : Int) ∈ data then .error .invalidChar
        else .ok (hrp, fiveToEightAux ((data.take (data.length - 6)).map Int.toNat) 0 0 [])

/-- `nsec_to_hex` (source lines 69-74).  The final `.hex()` rendering of the
byte string is omitted; the raw decoded bytes are returned. -/
def nsec_to_hex (nsec : List Char) : Except Bech32Error (List Nat) :=
  match bech32_decode nsec with
  | .error e => .error e
  | .ok (hrp, data) =>
    if hrp = "nsec".toList then .ok data else .error (.wrongHrp hrp)

/-- Modelled from the spec: the generator constants of the standard bech32
checksum ("a checksummed base-32-like scheme"), which the source never
computes.  Used only to exhibit inputs whose checksum is invalid. -/
def BECH32_GENERATOR : List Nat :=
  [0x3b6a57b2, 0x26508e6d, 0x1ea119fa, 0x3d4233dd, 0x2a1462b3]

/-- Modelled from the spec: the standard bech32 polymod over the 5-bit data
values. -/
def bech32Polymod (values : List Nat) : Nat :=
  values.foldl
    (fun chk v =>
      let b := chk >>> 25
      let chk2 := (((chk &&& 0x1ffffff) <<< 5) ^^^ v)
      (List.range 5).foldl
        (fun c i => if (b >>> i) &&& 1 = 1 then c ^^^ BECH32_GENERATOR.getD i 0 else c)
        chk2)
    1

/-- Modelled from the spec: the standard bech32 expansion of the
human-readable part for checksum purposes. -/
def bech32HrpExpand (hrp : List Char) : List Nat :=
  hrp.map (fun c => c.toNat >>> 5) ++ [0] ++ hrp.map (fun c => c.toNat &&& 31)

/-- Modelled from the spec: a bech32 string's checksum is valid when the
polymod of the expanded hrp followed by all data values equals 1. -/
def bech32VerifyChecksum (hrp : List Char) (data : List Nat) : Bool :=
  bech32Polymod (bech32HrpExpand hrp ++ data) == 1

/-! ## Envelope decryptor: HKDF and NIP-44 (source lines 176-217) -/

/-- RFC 2104 HMAC with a 64-byte block, over an abstract 32-byte hash
function; this is what `hmac.new(key, msg, hashlib.sha256)` computes. -/
def hmacSha256 (sha256 : List Nat → List Nat) (key msg : List Nat) : List Nat :=
  let k0 :=
    if 64 < key.length then sha256 key ++ List.replicate (64 - (sha256 key).length) 0
    else key ++ List.replicate (64 - key.length) 0
  sha256 ((k0.map (fun b => b ^^^ 0x5c)) ++ sha256 ((k0.map (fun b => b ^^^ 0x36)) ++ msg))

/-- The expand loop of `hkdf_extract_expand` (source lines 182-186): after
`n` iterations returns the pair `(t, okm)`.  Iteration `i` of the Python
loop (`i` running from 1) corresponds to recursion depth `i`. -/
def hkdfExpandLoop (sha256 : List Nat → List Nat) (prk info : List Nat) :
    Nat → List Nat × List Nat
  | 0 => ([], [])
  | n + 1 =>
    let p := hkdfExpandLoop sha256 prk info n
    let t := hmacSha256 sha256 prk (p.1 ++ info ++ [n + 1])
    (t, p.2 ++ t)

/-- `hkdf_extract_expand` (source lines 176-187).  An empty salt is replaced
by 32 zero bytes (the Python `salt if salt else b'\x00' * 32`). -/
def hkdf_extract_expand (sha256 : List Nat → List Nat)
    (salt ikm info : List Nat) (length : Nat) : List Nat :=
  let prk := hmacSha256 sha256 (if salt = [] then List.replicate 32 0 else salt) ikm
  (hkdfExpandLoop sha256 prk info ((length + 31) / 32)).2.take length

/-- Modelled from the spec: the block `T(i)` of RFC 5869 HKDF-Expand,
`T(0) = empty`, `T(i) = HMAC-Hash(PRK, T(i-1) | info | i)`. -/
def hkdfT (sha256 : List Nat → List Nat) (prk info : List Nat) : Nat → List Nat
  | 0 => []
  | n + 1 => hmacSha256 sha256 prk (hkdfT sha256 prk info n ++ info ++ [n + 1])

/-- Modelled from the spec: the concatenation `T(1) | T(2) | ... | T(n)` of
RFC 5869. -/
def hkdfBlocks (sha256 : List Nat → List Nat) (prk info : List Nat) : Nat → List Nat
  | 0 => []
  | n + 1 => hkdfBlocks sha256 prk info n ++ hkdfT sha256 prk info (n + 1)

/-- Modelled from the spec: RFC 5869 HKDF.  Extract: `PRK = HMAC-Hash(salt,
IKM)` with the salt defaulting to HashLen (32) zero bytes when not
provided.  Expand: `OKM = first L octets of T(1) | ... | T(N)` with
`N = ceil(L / HashLen)`. -/
def hkdfRfc5869 (sha256 : List Nat → List Nat)
    (salt ikm info : List Nat) (L : Nat) : List Nat :=
  let prk := hmacSha256 sha256 (if salt = [] then List.replicate 32 0 else salt) ikm
  (hkdfBlocks sha256 prk info ((L + 31) / 32)).take L

/-- The ASCII bytes of the domain-separation label `b"nip44-v2"`. -/
def nip44Info : List Nat := [110, 105, 112, 52, 52, 45, 118, 50]

/-- `int.from_bytes(bs, 'big')`. -/
def beBytesToNat (bs : List Nat) : Nat := bs.foldl (fun acc b => acc * 256 + b) 0

/-- The exceptions `nip44_decrypt` can raise on the modelled path:
`ciphertext[0]` on an empty blob raises `IndexError`; a version byte other
than 2 raises the unsupported-version `ValueError`; a failed
ChaCha20Poly1305 authentication raises `InvalidTag` (the spec's
`IntegrityError`). -/
inductive DecryptError where
  | indexError
  | unsupportedVersion (v : Nat)
  | integrityError
  deriving DecidableEq

/-- `nip44_decrypt` (source lines 190-217), taken after the initial
`base64.b64decode`: `ciphertext` is the decoded blob.  `chachaDecrypt key
nonce body` abstracts `ChaCha20Poly1305(key).decrypt(nonce, body, None)`,
returning `none` on authentication failure.  The final
`plaintext.decode('utf-8')` step is omitted: the returned value is the
byte string handed to that decode. -/
def nip44_decrypt (sha256 : List Nat → List Nat)
    (chachaDecrypt : List Nat → List Nat → List Nat → Option (List Nat))
    (ciphertext : List Nat) (conversation_key : List Nat) :
    Except DecryptError (List Nat) :=
  match ciphertext with
  | [] => .error .indexError
  | version :: rest =>
    if version ≠ 2 then .error (.unsupportedVersion version)
    else
      let nonce := rest.take 32
      let encrypted := rest.drop 32
      let enc_key := hkdf_extract_expand sha256 nonce conversation_key nip44Info 76
      let chacha_key := enc_key.take 32
      let chacha_nonce := (enc_key.drop 32).take 12
      match chachaDecrypt chacha_key chacha_nonce encrypted with
      | none => .error .integrityError
      | some plaintext_padded =>
        let length := beBytesToNat (plaintext_padded.take 2)
        .ok ((plaintext_padded.drop 2).take length)

/-! ## JSON values and Python dict operations -/

/-- The values `json.loads` can produce. -/
inductive JValue where
  | null
  | bool (b : Bool)
  | num (n : Int)
  | str (s : String)
  | arr (xs : List JValue)
  | obj (fields : List (String × JValue))

/-- Whether a JSON value is an object (a Python `dict`). -/
def JValue.isObj : JValue → Bool
  | .obj _ => true
  | _ => false

/-- Lookup in a Python dict, rendered as an association list (a real
Python dict has unique keys; lookup takes the first match). -/
def dictFind : List (String × JValue) → String → Option JValue
  | [], _ => none
  | (k2, v) :: rest, k => if k2 == k then some v else dictFind rest k

/-- Python dict item assignment `d[k] = v`: replace the value at an
existing key in place, or append the new pair at the end. -/
def dictSet : List (String × JValue) → String → JValue → List (String × JValue)
  | [], k, v => [(k, v)]
  | (k2, v2) :: rest, k, v =>
    if k2 == k then (k, v) :: rest else (k2, v2) :: dictSet rest k v

/-- Python subscription `x[k]` with a string key on a JSON value:
a `dict` yields the entry or raises `KeyError`; any other value raises
`TypeError`.  Both exceptions are `none` here (the caller catches every
exception). -/
def jIndexStr : JValue → String → Option JValue
  | .obj d, k => dictFind d k
  | _, _ => none

/-- Python `x.get(k, dflt)` on a JSON value: only a `dict` has `.get`
(anything else raises `AttributeError`, `none` here). -/
def jDictGetD : JValue → String → JValue → Option JValue
  | .obj d, k, dflt => some ((dictFind d k).getD dflt)
  | _, _, _ => none

/-- A Python value usable as a `str` argument; any non-string raises in
`"02" + pk_hex` / `bytes.fromhex` / `base64.b64decode` / `json.loads`. -/
def asPyStr : JValue → Option String
  | .str s => some s
  | _ => none

/-! ## Relay aggregator (source lines 145-173) -/

/-- A relay event as used by `fetch_gift_wraps` / `decrypt_gift_wrap`:
the fields the script reads, each optional since relay JSON may omit it. -/
structure Event where
  id : Option String := none
  pubkey : Option String := none
  content : Option String := none
  created_at : Option Int := none
  deriving DecidableEq

/-- `event.get("id", "")` (source line 164). -/
def eventKey (e : Event) : String := e.id.getD ""

/-- The deduplication loop of `fetch_gift_wraps` (source lines 162-167):
walk the events in arrival order, keeping an event only when its id has
not been seen. -/
def dedupAux (seen : List String) : List Event → List Event
  | [] => []
  | e :: rest =>
    if eventKey e ∈ seen then dedupAux seen rest
    else e :: dedupAux (eventKey e :: seen) rest

/-- `fetch_gift_wraps` (source lines 145-173), taken after the network
fan-out: `results` is the per-relay list of event lists produced by
`asyncio.gather` (one entry per relay, in relay order), and the function
returns the deduplicated `all_events`. -/
def fetch_gift_wraps (results : List (List Event)) : List Event :=
  dedupAux [] results.flatten

/-! ## Gift unwrapper (source lines 228-266) and decryption loop
(source lines 284-296)

`convKey sk pk` abstracts `get_conversation_key` (source lines 220-225),
which can raise on malformed hex (`none` here).  `dec c k` abstracts the
composite `nip44_decrypt(c, k)` as called here: base64 decoding of the
text `c`, `nip44_decrypt` proper, and the final UTF-8 decode; any failure
is `none`.  `pj s` abstracts `json.loads(s)`, `none` on
`json.JSONDecodeError`. -/

/-- Steps 1 and 2 of `decrypt_gift_wrap` (source lines 238-248): decrypt
the outer wrap to the seal, read the seal's sender key, and decrypt the
seal's content to the rumor.  Returns the sender key and parsed rumor. -/
def unwrapToRumor (convKey : String → String → Option (List Nat))
    (dec : String → List Nat → Option String)
    (pj : String → Option JValue)
    (event : Event) (recipient_sk_hex : String) : Option (String × JValue) := do
  let ephemeral_pk ← event.pubkey
  let conversation_key ← convKey recipient_sk_hex ephemeral_pk
  let outer_content ← event.content
  let seal_json ← dec outer_content conversation_key
  let sealV ← pj seal_json
  let sender_pk_val ← jIndexStr sealV "pubkey"
  let sender_pk ← asPyStr sender_pk_val
  let conversation_key_2 ← convKey recipient_sk_hex sender_pk
  let seal_content_val ← jIndexStr sealV "content"
  let seal_content ← asPyStr seal_content_val
  let rumor_json ← dec seal_content conversation_key_2
  let rumor ← pj rumor_json
  pure (sender_pk, rumor)

/-- Step 3 of `decrypt_gift_wrap` (source lines 250-262): parse the
rumor's content as JSON and inject `_sender_pubkey` and `_received_at`;
on `json.JSONDecodeError` synthesize the free-text fallback record.  A
content value that parses to a non-dict makes the item assignment raise
`TypeError`, and a non-string content value makes `json.loads` raise
`TypeError`; both are caught only by the outer handler (`none`). -/
def buildFeedback (pj : String → Option JValue)
    (sender_pk : String) (received_at : Int) (rumor : JValue) :
    Option (List (String × JValue)) := do
  let content_val ← jDictGetD rumor "content" (JValue.str "\x7b\x7d")
  match content_val with
  | .str content_text =>
    match pj content_text with
    | some (.obj fields) =>
      some (dictSet (dictSet fields "_sender_pubkey" (.str sender_pk))
              "_received_at" (.num received_at))
    | some _ => none
    | none =>
      some [("type", .str "unknown"), ("message", .str content_text),
            ("_sender_pubkey", .str sender_pk), ("_received_at", .num received_at)]
  | _ => none

/-- `decrypt_gift_wrap` (source lines 228-266): the whole body runs inside
`try`, every exception yields `None`. -/
def decrypt_gift_wrap (convKey : String → String → Option (List Nat))
    (dec : String → List Nat → Option String)
    (pj : String → Option JValue)
    (event : Event) (recipient_sk_hex : String) : Option (List (String × JValue)) := do
  let sr ← unwrapToRumor convKey dec pj event recipient_sk_hex
  buildFeedback pj sr.1 (event.created_at.getD 0) sr.2

/-- The uncaught exception of the decryption loop. -/
inductive PyError where
  | typeError
  deriving DecidableEq

/-- Whether Python `x[:40]` succeeds on a JSON value: only strings and
lists are sliceable; slicing any other value raises `TypeError`. -/
def pySliceable : JValue → Bool
  | .str _ => true
  | .arr _ => true
  | _ => false

/-- The decryption loop of `fetch_feedback` (source lines 288-293): for
each event, `decrypt_gift_wrap`; a truthy (non-empty dict) result is
appended, then the progress line computes
`feedback.get('message', '')[:40]`, which raises an uncaught `TypeError`
when the message value is not sliceable, aborting the whole loop. -/
def fetchFeedbackLoop (unwrapF : Event → Option (List (String × JValue))) :
    List Event → Except PyError (List (List (String × JValue)))
  | [] => .ok []
  | e :: rest =>
    match unwrapF e with
    | none => fetchFeedbackLoop unwrapF rest
    | some feedback =>
      if feedback.isEmpty then fetchFeedbackLoop unwrapF rest
      else if pySliceable ((dictFind feedback "message").getD (.str "")) then
        match fetchFeedbackLoop unwrapF rest with
        | .ok items => .ok (feedback :: items)
        | .error err => .error err
      else .error .typeError

/-- `fetch_feedback` (source lines 269-296), taken after the network fetch:
`events` is the deduplicated gift-wrap list, and the result is the
decrypted `feedback_items` (or the uncaught exception of the loop). -/
def fetch_feedback (convKey : String → String → Option (List Nat))
    (dec : String → List Nat → Option String)
    (pj : String → Option JValue)
    (recipient_sk_hex : String) (events : List Event) :
    Except PyError (List (List (String × JValue))) :=
  fetchFeedbackLoop (fun e => decrypt_gift_wrap convKey dec pj e recipient_sk_hex) events

/-! ## Concrete instantiations of the abstract collaborators, used to
evaluate the theorems on closed inputs -/

/-- A trivial 32-byte hash, standing in for `hashlib.sha256` in closed
evaluations. -/
def sha256Z : List Nat → List Nat := fun _ => List.replicate 32 0

/-- A ChaCha20Poly1305 oracle whose decryption yields the padded block
`[0, 5, 65]`: length word 5, one byte of body. -/
def cdC5 : List Nat → List Nat → List Nat → Option (List Nat) := fun _ _ _ => some [0, 5, 65]

/-- A ChaCha20Poly1305 oracle whose decryption yields the padded block
`[0, 1, 65, 66]`: length word 1, two bytes of body. -/
def cdC1 : List Nat → List Nat → List Nat → Option (List Nat) := fun _ _ _ => some [0, 1, 65, 66]

/-- A ChaCha20Poly1305 oracle that always fails authentication. -/
def cdNone : List Nat → List Nat → List Nat → Option (List Nat) := fun _ _ _ => none

/-- A conversation-key oracle for closed evaluations. -/
def convKeyT : String → String → Option (List Nat) := fun _ _ => some [1]

/-- A decryption oracle for closed evaluations of `decrypt_gift_wrap`:
each outer wrap decrypts to a seal tag, each seal content to a rumor tag. -/
def decT : String → List Nat → Option String := fun c _ =>
  if c = "W" then some "S"
  else if c = "SC" then some "R"
  else if c = "W5" then some "S5"
  else if c = "SC5" then some "R5"
  else if c = "W9" then some "S9"
  else if c = "SC9" then some "R9"
  else if c = "WB" then some "SB"
  else if c = "SCB" then some "RB"
  else none

/-- A JSON-parsing oracle for closed evaluations: the seal and rumor tags
parse to objects; `"P"` is a structured payload, `"hello there"` is not
JSON, `"N"` parses to a bare number, `"PB"` parses to a payload whose
message is a number. -/
def parseT : String → Option JValue := fun s =>
  if s = "S" then some (.obj [("pubkey", .str "alice"), ("content", .str "SC")])
  else if s = "R" then some (.obj [("content", .str "P")])
  else if s = "P" then some (.obj [("type", .str "bug")])
  else if s = "S5" then some (.obj [("pubkey", .str "alice"), ("content", .str "SC5")])
  else if s = "R5" then some (.obj [("content", .str "hello there")])
  else if s = "S9" then some (.obj [("pubkey", .str "alice"), ("content", .str "SC9")])
  else if s = "R9" then some (.obj [("content", .str "N")])
  else if s = "N" then some (.num 5)
  else if s = "SB" then some (.obj [("pubkey", .str "alice"), ("content", .str "SCB")])
  else if s = "RB" then some (.obj [("content", .str "PB")])
  else if s = "PB" then some (.obj [("message", .num 7)])
  else none

/-- A gift wrap whose rumor content is the structured payload. -/
def eventT : Event :=
  { id := some "e1", pubkey := some "eph", content := some "W", created_at := some 42 }

/-- A gift wrap whose rumor content is free text, not JSON. -/
def eventT5 : Event :=
  { id := some "e5", pubkey := some "eph", content := some "W5", created_at := some 43 }

/-- A gift wrap whose rumor content is JSON but not an object. -/
def eventT9 : Event :=
  { id := some "e9", pubkey := some "eph", content := some "W9", created_at := some 44 }

/-- A gift wrap whose rumor content is an object with a numeric message. -/
def eventTB : Event :=
  { id := some "eb", pubkey := some "eph", content := some "WB", created_at := some 45 }

/-- Events for the deduplication evaluations. -/
def evA : Event := { id := some "a", created_at := some 1 }

/-- A second event carrying the same id as `evA`. -/
def evA2 : Event := { id := some "a", created_at := some 2 }

/-- An event with a fresh id. -/
def evB : Event := { id := some "b" }

/-- An event with no id field. -/
def evN1 : Event := { pubkey := some "x" }

/-- A second event with no id field. -/
def evN2 : Event := { pubkey := some "y" }

/-- An event whose id is explicitly the empty string. -/
def evE : Event := { id := some "" }

/-! ## HKDF refinement -/

theorem hkdfExpandLoop_eq (sha256 : List Nat → List Nat) (prk info : List Nat) :
    ∀ n, hkdfExpandLoop sha256 prk info n
      = (hkdfT sha256 prk info n, hkdfBlocks sha256 prk info n) := by
  intro n
  induction n with
  | zero => rfl
  | succ n ih => rw [hkdfExpandLoop, ih]; rfl

theorem hkdf_extract_expand_eq_rfc (sha256 : List Nat → List Nat)
    (salt ikm info : List Nat) (L : Nat) :
    hkdf_extract_expand sha256 salt ikm info L = hkdfRfc5869 sha256 salt ikm info L := by
  simp only [hkdf_extract_expand, hkdfRfc5869, hkdfExpandLoop_eq]

/-- C8: on a version-2 blob, the keying material used by `nip44_decrypt`
is the 76-byte RFC 5869 HKDF output (HMAC-SHA256 extract-and-expand) with
the 32-byte nonce at blob bytes 1..33 as salt, the conversation key as
input keying material, and the label `"nip44-v2"` as info; its first 32
bytes are the cipher key and the next 12 bytes the cipher nonce. -/
theorem c8_key_derivation (sha256 : List Nat → List Nat)
    (cd : List Nat → List Nat → List Nat → Option (List Nat))
    (rest ck : List Nat) :
    nip44_decrypt sha256 cd (2 :: rest) ck =
      match cd ((hkdfRfc5869 sha256 (rest.take 32) ck nip44Info 76).take 32)
               (((hkdfRfc5869 sha256 (rest.take 32) ck nip44Info 76).drop 32).take 12)
               (rest.drop 32) with
      | none => .error .integrityError
      | some plaintext_padded =>
        .ok ((plaintext_padded.drop 2).take (beBytesToNat (plaintext_padded.take 2))) := by
  rw [nip44_decrypt, ← hkdf_extract_expand_eq_rfc]
  simp

/-! ## Version check -/

/-- C2: a decoded blob whose first byte is not 2 always fails with the
unsupported-version error, regardless of the rest of the blob; a blob
whose first byte is 2 never produces that error. -/
theorem c2_version_check :
    (∀ (sha256 : List Nat → List Nat)
       (cd : List Nat → List Nat → List Nat → Option (List Nat))
       (rest ck : List Nat) (v : Nat), v ≠ 2 →
       nip44_decrypt sha256 cd (v :: rest) ck = .error (.unsupportedVersion v))
    ∧ (∀ (sha256 : List Nat → List Nat)
       (cd : List Nat → List Nat → List Nat → Option (List Nat))
       (rest ck : List Nat) (v : Nat),
       nip44_decrypt sha256 cd (2 :: rest) ck ≠ .error (.unsupportedVersion v)) := by
  constructor
  · intro sha256 cd rest ck v hv
    simp [nip44_decrypt, hv]
  · intro sha256 cd rest ck v
    rw [nip44_decrypt]
    simp only [ne_eq, not_true_eq_false, if_false, reduceIte]
    cases cd ((hkdf_extract_expand sha256 (rest.take 32) ck nip44Info 76).take 32)
        (((hkdf_extract_expand sha256 (rest.take 32) ck nip44Info 76).drop 32).take 12)
        (rest.drop 32) <;> simp

/-- C2 witness: the version check at the concrete blob `[3]`. -/
theorem c2_version_check_witness :
    nip44_decrypt sha256Z cdNone [3] [] = .error (.unsupportedVersion 3) :=
  c2_version_check.1 sha256Z cdNone [] [] 3 (by decide)

/-! ## Padding handling -/

/-- C1 counterexample: a version-2 blob whose decrypted block is
`[0, 5, 65]` — the length word 5 exceeds the single byte that follows it —
is not rejected: `nip44_decrypt` returns the payload `[65]`. -/
theorem c1_counterexample :
    nip44_decrypt sha256Z cdC5 (2 :: List.replicate 40 7) [9] = .ok [65]
    ∧ beBytesToNat (([0, 5, 65] : List Nat).take 2) = 5
    ∧ (([0, 5, 65] : List Nat).drop 2).length = 1 :=
  ⟨rfl, rfl, rfl⟩

/-- C1 (amended): whatever padded block the AEAD step yields, the length
word is read from its first two bytes and that many bytes after them are
returned; when the length word is consistent with the block exactly that
many bytes result, and when it exceeds the remaining bytes the whole
remainder is returned silently, with no padding error. -/
theorem c1_amended (sha256 : List Nat → List Nat)
    (cd : List Nat → List Nat → List Nat → Option (List Nat))
    (rest ck pp : List Nat)
    (h : cd ((hkdf_extract_expand sha256 (rest.take 32) ck nip44Info 76).take 32)
            (((hkdf_extract_expand sha256 (rest.take 32) ck nip44Info 76).drop 32).take 12)
            (rest.drop 32) = some pp) :
    nip44_decrypt sha256 cd (2 :: rest) ck
      = .ok ((pp.drop 2).take (beBytesToNat (pp.take 2)))
    ∧ (beBytesToNat (pp.take 2) ≤ (pp.drop 2).length →
        ((pp.drop 2).take (beBytesToNat (pp.take 2))).length = beBytesToNat (pp.take 2))
    ∧ ((pp.drop 2).length < beBytesToNat (pp.take 2) →
        (pp.drop 2).take (beBytesToNat (pp.take 2)) = pp.drop 2) := by
  refine ⟨?_, ?_, ?_⟩
  · rw [nip44_decrypt]
    simp only [ne_eq, not_true_eq_false, if_false, reduceIte]
    rw [h]
  · intro hle
    rw [List.length_take]
    exact Nat.min_eq_left hle
  · intro hlt
    exact List.take_of_length_le (Nat.le_of_lt hlt)

/-- C1 witness: the consistent case at the concrete decrypted block
`[0, 1, 65, 66]` (length word 1, two bytes of body): exactly one byte is
returned. -/
theorem c1_amended_witness :
    nip44_decrypt sha256Z cdC1 (2 :: List.replicate 40 7) [9] = .ok [65]
    ∧ (beBytesToNat (([0, 1, 65, 66] : List Nat).take 2) ≤ (([0, 1, 65, 66] : List Nat).drop 2).length →
        ((([0, 1, 65, 66] : List Nat).drop 2).take (beBytesToNat (([0, 1, 65, 66] : List Nat).take 2))).length
          = beBytesToNat (([0, 1, 65, 66] : List Nat).take 2))
    ∧ ((([0, 1, 65, 66] : List Nat).drop 2).length < beBytesToNat (([0, 1, 65, 66] : List Nat).take 2) →
        (([0, 1, 65, 66] : List Nat).drop 2).take (beBytesToNat (([0, 1, 65, 66] : List Nat).take 2))
          = ([0, 1, 65, 66] : List Nat).drop 2) :=
  c1_amended sha256Z cdC1 (List.replicate 40 7) [9] [0, 1, 65, 66] rfl

/-! ## Deduplication -/

theorem dedupAux_countP_zero (k : String) :
    ∀ (l : List Event) (seen : List String), k ∈ seen →
      (dedupAux seen l).countP (fun e => eventKey e == k) = 0 := by
  intro l
  induction l with
  | nil => intro seen _; simp [dedupAux]
  | cons e rest ih =>
    intro seen hk
    rw [dedupAux]
    by_cases he : eventKey e ∈ seen
    · rw [if_pos he]; exact ih seen hk
    · rw [if_neg he, List.countP_cons]
      have hne : (eventKey e == k) = false := by
        refine beq_false_of_ne ?_
        intro hcontr
        exact he (hcontr ▸ hk)
      rw [hne, ih (eventKey e :: seen) (List.mem_cons_of_mem _ hk)]
      simp

theorem dedupAux_countP_le_one (k : String) :
    ∀ (l : List Event) (seen : List String),
      (dedupAux seen l).countP (fun e => eventKey e == k) ≤ 1 := by
  intro l
  induction l with
  | nil => intro seen; simp [dedupAux]
  | cons e rest ih =>
    intro seen
    rw [dedupAux]
    by_cases he : eventKey e ∈ seen
    · rw [if_pos he]; exact ih seen
    · rw [if_neg he, List.countP_cons]
      by_cases hk : eventKey e = k
      · rw [dedupAux_countP_zero k rest (eventKey e :: seen) (by rw [hk]; exact List.mem_cons_self _ _)]
        simp [hk]
      · have : (eventKey e == k) = false := beq_false_of_ne hk
        rw [this]
        simpa using ih (eventKey e :: seen)

theorem dedupAux_mem_first :
    ∀ (l : List Event) (seen : List String) (e : Event), e ∈ dedupAux seen l →
      eventKey e ∉ seen ∧ l.find? (fun x => eventKey x == eventKey e) = some e := by
  intro l
  induction l with
  | nil => intro seen e he; simp [dedupAux] at he
  | cons x rest ih =>
    intro seen e he
    rw [dedupAux] at he
    by_cases hx : eventKey x ∈ seen
    · rw [if_pos hx] at he
      obtain ⟨hnot, hfind⟩ := ih seen e he
      have hne : (eventKey x == eventKey e) = false := by
        refine beq_false_of_ne ?_
        intro hcontr
        exact hnot (hcontr ▸ hx)
      rw [List.find?_cons_of_neg _ (by simp [hne]), hfind]
      exact ⟨hnot, rfl⟩
    · rw [if_neg hx] at he
      rcases List.mem_cons.mp he with heq | hmem
      · subst heq
        exact ⟨hx, List.find?_cons_of_pos _ (by simp)⟩
      · obtain ⟨hnot, hfind⟩ := ih (eventKey x :: seen) e hmem
        have hxe : eventKey x ≠ eventKey e := by
          intro hcontr
          exact hnot (hcontr ▸ List.mem_cons_self _ _)
        refine ⟨fun hc => hnot (List.mem_cons_of_mem _ hc), ?_⟩
        rw [List.find?_cons_of_neg _ (by simp [beq_false_of_ne hxe]), hfind]

/-- C3: in the aggregator's combined result, each record identifier occurs
at most once, and every kept event is the first event bearing its
identifier in the concatenation of the per-relay responses. -/
theorem c3_dedup_first_seen :
    (∀ (results : List (List Event)) (k : String),
       (fetch_gift_wraps results).countP (fun e => eventKey e == k) ≤ 1)
    ∧ (∀ (results : List (List Event)), ∀ e ∈ fetch_gift_wraps results,
       results.flatten.find? (fun x => eventKey x == eventKey e) = some e) := by
  constructor
  · intro results k
    exact dedupAux_countP_le_one k results.flatten []
  · intro results e he
    exact (dedupAux_mem_first results.flatten [] e he).2

/-- C3 witness: the id `"a"` returned by two relays is kept once, as the
first-seen event. -/
theorem c3_dedup_first_seen_witness :
    (fetch_gift_wraps [[evA, evB], [evA2]]).countP (fun e => eventKey e == "a") ≤ 1
    ∧ ([[evA, evB], [evA2]] : List (List Event)).flatten.find?
        (fun x => eventKey x == eventKey evA) = some evA :=
  ⟨c3_dedup_first_seen.1 [[evA, evB], [evA2]] "a",
   c3_dedup_first_seen.2 [[evA, evB], [evA2]] evA (by decide)⟩

/-- C10: events without an id field all share the dedup key `""`, so at
most one id-less event survives aggregation, and a surviving id-less
event is the first event (of any kind) whose key is the empty string. -/
theorem c10_idless_dedup :
    (∀ (results : List (List Event)),
       (fetch_gift_wraps results).countP (fun e => e.id.isNone) ≤ 1)
    ∧ (∀ (results : List (List Event)), ∀ e ∈ fetch_gift_wraps results, e.id = none →
       results.flatten.find? (fun x => eventKey x == "") = some e) := by
  constructor
  · intro results
    calc (fetch_gift_wraps results).countP (fun e => e.id.isNone)
        ≤ (fetch_gift_wraps results).countP (fun e => eventKey e == "") := by
          refine List.countP_mono_left ?_
          intro e _ hnone
          cases hid : e.id with
          | none => simp [eventKey, hid]
          | some s => rw [hid] at hnone; simp at hnone
      _ ≤ 1 := dedupAux_countP_le_one "" results.flatten []
  · intro results e he hid
    have h := (dedupAux_mem_first results.flatten [] e he).2
    have hkey : eventKey e = "" := by simp [eventKey, hid]
    rw [hkey] at h
    exact h

/-- C10 witness: of two id-less events and one empty-string-id event
across two relays, only the first id-less event survives, and it is the
first event with key `""`. -/
theorem c10_idless_dedup_witness :
    (fetch_gift_wraps [[evN1, evN2], [evE]]).countP (fun e => e.id.isNone) ≤ 1
    ∧ ([[evN1, evN2], [evE]] : List (List Event)).flatten.find?
        (fun x => eventKey x == "") = some evN1 :=
  ⟨c10_idless_dedup.1 [[evN1, evN2], [evE]],
   c10_idless_dedup.2 [[evN1, evN2], [evE]] evN1 (by decide) rfl⟩

/-! ## Dict update lemmas -/

theorem dictFind_dictSet_self (d : List (String × JValue)) (k : String) (v : JValue) :
    dictFind (dictSet d k v) k = some v := by
  induction d with
  | nil => simp [dictSet, dictFind]
  | cons p rest ih =>
    obtain ⟨k2, v2⟩ := p
    by_cases h : k2 = k
    · simp [dictSet, dictFind, h]
    · simp [dictSet, dictFind, h, ih]

theorem dictFind_dictSet_other (d : List (String × JValue)) (k k1 : String) (v : JValue)
    (h : k1 ≠ k) : dictFind (dictSet d k v) k1 = dictFind d k1 := by
  induction d with
  | nil => simp [dictSet, dictFind, Ne.symm h]
  | cons p rest ih =>
    obtain ⟨k2, v2⟩ := p
    by_cases h2 : k2 = k
    · subst h2
      simp [dictSet, dictFind, Ne.symm h]
    · by_cases h3 : k2 = k1
      · simp [dictSet, dictFind, h, h2, h3]
      · simp [dictSet, dictFind, h, h2, h3, ih]

/-! ## Gift unwrapping: injected fields, fallback, non-object payloads -/

/-- C5: when the rumor's content is a string that is not valid JSON, the
unwrapper returns the synthesized record of shape type `"unknown"`,
message the original text, plus the two injected fields. -/
theorem c5_fallback_shape (convKey : String → String → Option (List Nat))
    (dec : String → List Nat → Option String) (pj : String → Option JValue)
    (event : Event) (sk epk : String) (k1 : List Nat) (c1 sj : String)
    (sealV : JValue) (spk : String) (k2 : List Nat) (sc rj : String)
    (rumor : JValue) (t : String)
    (h1 : event.pubkey = some epk) (h2 : convKey sk epk = some k1)
    (h3 : event.content = some c1) (h4 : dec c1 k1 = some sj)
    (h5 : pj sj = some sealV) (h6 : jIndexStr sealV "pubkey" = some (.str spk))
    (h7 : convKey sk spk = some k2) (h8 : jIndexStr sealV "content" = some (.str sc))
    (h9 : dec sc k2 = some rj) (h10 : pj rj = some rumor)
    (h11 : jDictGetD rumor "content" (JValue.str "\x7b\x7d") = some (JValue.str t))
    (h12 : pj t = none) :
    decrypt_gift_wrap convKey dec pj event sk
      = some [("type", .str "unknown"), ("message", .str t),
              ("_sender_pubkey", .str spk), ("_received_at", .num (event.created_at.getD 0))] := by
  simp only [decrypt_gift_wrap, unwrapToRumor, buildFeedback, asPyStr, Option.bind_eq_bind,
    Option.some_bind, Option.pure_def, h1, h2, h3, h4, h5, h6, h7, h8, h9, h10, h11, h12]

/-- C5 witness: the concrete gift wrap whose rumor content is the non-JSON
text `"hello there"`. -/
theorem c5_fallback_shape_witness :
    decrypt_gift_wrap convKeyT decT parseT eventT5 "sk"
      = some [("type", .str "unknown"), ("message", .str "hello there"),
              ("_sender_pubkey", .str "alice"), ("_received_at", .num (eventT5.created_at.getD 0))] :=
  c5_fallback_shape convKeyT decT parseT eventT5 "sk" "eph" [1] "W5" "S5"
    (.obj [("pubkey", .str "alice"), ("content", .str "SC5")]) "alice" [1] "SC5" "R5"
    (.obj [("content", .str "hello there")]) "hello there"
    rfl rfl rfl rfl rfl rfl rfl rfl rfl rfl rfl rfl

/-- C9: when the rumor's content is a string that parses as JSON but not
as an object, the structured branch is taken and the item assignment on
the non-dict value raises, so the unwrapper returns no result. -/
theorem c9_nonobject_none (convKey : String → String → Option (List Nat))
    (dec : String → List Nat → Option String) (pj : String → Option JValue)
    (event : Event) (sk epk : String) (k1 : List Nat) (c1 sj : String)
    (sealV : JValue) (spk : String) (k2 : List Nat) (sc rj : String)
    (rumor : JValue) (t : String) (v : JValue)
    (h1 : event.pubkey = some epk) (h2 : convKey sk epk = some k1)
    (h3 : event.content = some c1) (h4 : dec c1 k1 = some sj)
    (h5 : pj sj = some sealV) (h6 : jIndexStr sealV "pubkey" = some (.str spk))
    (h7 : convKey sk spk = some k2) (h8 : jIndexStr sealV "content" = some (.str sc))
    (h9 : dec sc k2 = some rj) (h10 : pj rj = some rumor)
    (h11 : jDictGetD rumor "content" (JValue.str "\x7b\x7d") = some (JValue.str t))
    (h12 : pj t = some v) (h13 : v.isObj = false) :
    decrypt_gift_wrap convKey dec pj event sk = none := by
  simp only [decrypt_gift_wrap, unwrapToRumor, buildFeedback, asPyStr, Option.bind_eq_bind,
    Option.some_bind, Option.pure_def, h1, h2, h3, h4, h5, h6, h7, h8, h9, h10, h11, h12]
  cases v <;> simp_all [JValue.isObj]

/-- C9 witness: the concrete gift wrap whose rumor content parses to the
bare number 5. -/
theorem c9_nonobject_none_witness :
    decrypt_gift_wrap convKeyT decT parseT eventT9 "sk" = none :=
  c9_nonobject_none convKeyT decT parseT eventT9 "sk" "eph" [1] "W9" "S9"
    (.obj [("pubkey", .str "alice"), ("content", .str "SC9")]) "alice" [1] "SC9" "R9"
    (.obj [("content", .str "N")]) "N" (.num 5)
    rfl rfl rfl rfl rfl rfl rfl rfl rfl rfl rfl rfl rfl

/-- C4: whenever unwrapping succeeds, the returned record's
`_sender_pubkey` is the pubkey read from the decrypted seal (the inner
sender, not the outer ephemeral key) and `_received_at` is the outer
event's `created_at`; this holds in the structured branch and in the
free-text fallback branch alike. -/
theorem c4_injected_fields (convKey : String → String → Option (List Nat))
    (dec : String → List Nat → Option String) (pj : String → Option JValue)
    (event : Event) (sk : String) (f : List (String × JValue))
    (h : decrypt_gift_wrap convKey dec pj event sk = some f) :
    dictFind f "_received_at" = some (.num (event.created_at.getD 0))
    ∧ ∃ spk, dictFind f "_sender_pubkey" = some (.str spk)
      ∧ (event.pubkey.bind fun epk => (convKey sk epk).bind fun k1 =>
         event.content.bind fun c1 => (dec c1 k1).bind fun sj =>
         (pj sj).bind fun sealV => jIndexStr sealV "pubkey") = some (.str spk) := by
  simp only [decrypt_gift_wrap, Option.bind_eq_bind, Option.bind_eq_some] at h
  obtain ⟨sr, hu, hb⟩ := h
  simp only [unwrapToRumor, Option.bind_eq_bind, Option.bind_eq_some, Option.pure_def,
    Option.some.injEq] at hu
  obtain ⟨epk, h1, k1, h2, c1, h3, sj, h4, sealV, h5, spkv, h6, spk, h6b, k2, h7,
    scv, h8, sc, h8b, rj, h9, rumor, h10, hsr⟩ := hu
  subst hsr
  cases spkv with
  | str s =>
    simp only [asPyStr, Option.some.injEq] at h6b
    subst h6b
    simp only [buildFeedback, Option.bind_eq_bind, Option.bind_eq_some] at hb
    obtain ⟨cv, hcv, hmatch⟩ := hb
    have hchain : (event.pubkey.bind fun epk2 => (convKey sk epk2).bind fun k12 =>
        event.content.bind fun c12 => (dec c12 k12).bind fun sj2 =>
        (pj sj2).bind fun sealV2 => jIndexStr sealV2 "pubkey") = some (JValue.str s) := by
      simp only [h1, h2, h3, h4, h5, h6, Option.some_bind]
    split at hmatch
    · split at hmatch
      · simp only [Option.some.injEq] at hmatch
        subst hmatch
        refine ⟨dictFind_dictSet_self _ _ _, s, ?_, hchain⟩
        rw [dictFind_dictSet_other _ _ _ _ (by decide)]
        exact dictFind_dictSet_self _ _ _
      · exact absurd hmatch (by simp)
      · simp only [Option.some.injEq] at hmatch
        subst hmatch
        exact ⟨rfl, s, rfl, hchain⟩
    · exact absurd hmatch (by simp)
  | null => simp [asPyStr] at h6b
  | bool b => simp [asPyStr] at h6b
  | num n => simp [asPyStr] at h6b
  | arr xs => simp [asPyStr] at h6b
  | obj d => simp [asPyStr] at h6b

/-- C4 witness: the concrete structured gift wrap: the record carries the
seal's `"alice"` and the outer timestamp 42. -/
theorem c4_injected_fields_witness :
    dictFind [("type", JValue.str "bug"), ("_sender_pubkey", JValue.str "alice"),
        ("_received_at", JValue.num 42)] "_received_at" = some (JValue.num 42)
    ∧ dictFind [("type", JValue.str "bug"), ("_sender_pubkey", JValue.str "alice"),
        ("_received_at", JValue.num 42)] "_sender_pubkey" = some (JValue.str "alice") := by
  obtain ⟨hr, spk, hs, hc⟩ := c4_injected_fields convKeyT decT parseT eventT "sk"
    [("type", JValue.str "bug"), ("_sender_pubkey", JValue.str "alice"),
     ("_received_at", JValue.num 42)] rfl
  have hspk : spk = "alice" := by
    have h2 : some (JValue.str spk) = some (JValue.str "alice") := by rw [← hc]; rfl
    simpa using h2
  rw [hspk] at hs
  exact ⟨hr, hs⟩

/-- C6 (code-bug exhibit): the unwrapper itself is total — a corrupted
event yields no record and is skipped, as the first conjunct's batch
shows (`eventT9` is dropped, `eventT` is kept).  But the decryption loop
is not abort-free: in the second batch every event unwraps or is skipped
correctly, yet the payload whose `"message"` value is the number 7 makes
the progress line `feedback.get('message', '')[:40]` raise an uncaught
`TypeError`, so the whole batch is lost instead of being yielded. -/
theorem c6_preview_crash_eval :
    fetch_feedback convKeyT decT parseT "sk" [eventT, eventT9]
      = .ok [[("type", .str "bug"), ("_sender_pubkey", .str "alice"), ("_received_at", .num 42)]]
    ∧ fetch_feedback convKeyT decT parseT "sk" [eventT, eventTB] = .error .typeError :=
  ⟨rfl, rfl⟩

/-! ## Bech32 lemmas -/

theorem alpha_toLower (c : Char) (hc : c ∈ BECH32_ALPHABET) : Char.toLower c = c := by
  fin_cases hc <;> rfl

theorem alpha_ne_one (c : Char) (hc : c ∈ BECH32_ALPHABET) : c ≠ '1' := by
  fin_cases hc <;> decide

theorem alpha_val_ne_neg_one (c : Char) (hc : c ∈ BECH32_ALPHABET) :
    bech32CharVal c ≠ -1 := by
  fin_cases hc <;> decide

theorem map_toLower_eq_self (d : List Char) (ha : ∀ c ∈ d, c ∈ BECH32_ALPHABET) :
    d.map Char.toLower = d := by
  induction d with
  | nil => rfl
  | cons c rest ih =>
    rw [List.map_cons, alpha_toLower c (ha c (List.mem_cons_self _ _)),
      ih (fun x hx => ha x (List.mem_cons_of_mem _ hx))]

theorem rfindOne_eq_none_of_no_one (d : List Char) (hd : ∀ c ∈ d, c ≠ '1') :
    rfindOne d = none := by
  induction d with
  | nil => rfl
  | cons c rest ih =>
    rw [rfindOne, ih (fun x hx => hd x (List.mem_cons_of_mem _ hx))]
    simp [hd c (List.mem_cons_self _ _)]

theorem rfindOne_append_none (p d : List Char) (hd : rfindOne d = none) :
    rfindOne (p ++ d) = rfindOne p := by
  induction p with
  | nil => simpa using hd
  | cons c rest ih => simp only [List.cons_append, rfindOne, List.append_eq, ih]

theorem rfindOne_lt_length : ∀ {l : List Char} {i : Nat}, rfindOne l = some i → i < l.length := by
  intro l
  induction l with
  | nil => intro i h; simp [rfindOne] at h
  | cons c rest ih =>
    intro i h
    rw [rfindOne] at h
    cases hr : rfindOne rest with
    | some j =>
      rw [hr] at h
      simp only [Option.some.injEq] at h
      subst h
      exact Nat.succ_lt_succ (ih hr)
    | none =>
      rw [hr] at h
      by_cases hc : c = '1'
      · rw [if_pos hc] at h
        simp only [Option.some.injEq] at h
        subst h
        simp
      · rw [if_neg hc] at h
        exact absurd h (by simp)

/-- On an input of the form `p ++ d` where `p` is lowercase and `d` is six
charset characters, the decoder's result does not depend on `d`: the last
six data characters are discarded unverified. -/
theorem bech32_decode_append_alpha (p d : List Char)
    (hp : p = p.map Char.toLower) (hl : d.length = 6)
    (ha : ∀ c ∈ d, c ∈ BECH32_ALPHABET) :
    bech32_decode (p ++ d) =
      match rfindOne p with
      | none => .error .invalidSeparator
      | some pos =>
        if pos < 1 ∨ pos + 7 > p.length + 6 then .error .invalidSeparator
        else if (-1 : Int) ∈ (p.drop (pos + 1)).map bech32CharVal then .error .invalidChar
        else .ok (p.take pos,
          fiveToEightAux (((p.drop (pos + 1)).map bech32CharVal).map Int.toNat) 0 0 []) := by
  have hd_lower : d.map Char.toLower = d := map_toLower_eq_self d ha
  have hmap : (p ++ d).map Char.toLower = p ++ d := by
    rw [List.map_append, ← hp, hd_lower]
  have hrfind : rfindOne (p ++ d) = rfindOne p :=
    rfindOne_append_none p d
      (rfindOne_eq_none_of_no_one d (fun c hc => alpha_ne_one c (ha c hc)))
  rw [bech32_decode, if_neg (fun hcontr => hcontr.1 hmap.symm)]
  simp only [hmap, hrfind]
  cases hr : rfindOne p with
  | none => rfl
  | some pos =>
    have hposlt : pos < p.length := rfindOne_lt_length hr
    simp only [List.length_append, hl]
    by_cases hbad : pos < 1 ∨ pos + 7 > p.length + 6
    · rw [if_pos hbad, if_pos hbad]
    · rw [if_neg hbad, if_neg hbad]
      rw [List.take_append_of_le_length (Nat.le_of_lt hposlt),
        List.drop_append_of_le_length hposlt, List.map_append]
      have hYne : (-1 : Int) ∉ (d.map bech32CharVal) := by
        intro hc
        obtain ⟨c, hcd, hceq⟩ := List.mem_map.mp hc
        exact alpha_val_ne_neg_one c (ha c hcd) hceq
      by_cases hX : (-1 : Int) ∈ (p.drop (pos + 1)).map bech32CharVal
      · rw [if_pos (List.mem_append_left _ hX), if_pos hX]
      · rw [if_neg (fun hc => (List.mem_append.mp hc).elim hX hYne), if_neg hX]
        have hlen : ((p.drop (pos + 1)).map bech32CharVal ++ d.map bech32CharVal).length - 6
            = ((p.drop (pos + 1)).map bech32CharVal).length := by
          rw [List.length_append, List.length_map d, hl, Nat.add_sub_cancel]
        rw [hlen, List.take_left]

/-- C7 counterexample: the string `"nsec1qqqqqqqq"` fails standard bech32
checksum validation (its six final characters are not the checksum of hrp
`"nsec"` and data `[0, 0]`), yet `nsec_to_hex` decodes it to the byte
`[0]` — the decoder never verifies the checksum. -/
theorem c7_counterexample :
    nsec_to_hex ("nsec1qqqqqqqq".toList) = .ok [0]
    ∧ bech32VerifyChecksum ("nsec".toList) [0, 0, 0, 0, 0, 0, 0, 0] = false :=
  ⟨rfl, by decide⟩

/-- C7 (amended): decoding fails on mixed case, on a missing or misplaced
separator, on a data character outside the charset, and on a
human-readable part other than `"nsec"`; on inputs passing those checks
it succeeds — the checksum is never validated, so the result does not
depend on the final six data characters at all. -/
theorem c7_amended :
    (∀ s : List Char, s ≠ s.map Char.toLower → s ≠ s.map Char.toUpper →
       nsec_to_hex s = .error .mixedCase)
    ∧ (∀ s : List Char, s = s.map Char.toLower ∨ s = s.map Char.toUpper →
       (∀ pos, rfindOne (s.map Char.toLower) = some pos → pos < 1 ∨ pos + 7 > s.length) →
       nsec_to_hex s = .error .invalidSeparator)
    ∧ (∀ (s : List Char) (pos : Nat), s = s.map Char.toLower ∨ s = s.map Char.toUpper →
       rfindOne (s.map Char.toLower) = some pos → ¬(pos < 1 ∨ pos + 7 > s.length) →
       (-1 : Int) ∈ ((s.map Char.toLower).drop (pos + 1)).map bech32CharVal →
       nsec_to_hex s = .error .invalidChar)
    ∧ (∀ (s hrp : List Char) (data : List Nat),
       bech32_decode s = .ok (hrp, data) → hrp ≠ "nsec".toList →
       nsec_to_hex s = .error (.wrongHrp hrp))
    ∧ (∀ (s hrp : List Char) (data : List Nat),
       bech32_decode s = .ok (hrp, data) → hrp = "nsec".toList →
       nsec_to_hex s = .ok data)
    ∧ (∀ p d1 d2 : List Char, p = p.map Char.toLower →
       d1.length = 6 → d2.length = 6 →
       (∀ c ∈ d1, c ∈ BECH32_ALPHABET) → (∀ c ∈ d2, c ∈ BECH32_ALPHABET) →
       nsec_to_hex (p ++ d1) = nsec_to_hex (p ++ d2)) := by
  refine ⟨?_, ?_, ?_, ?_, ?_, ?_⟩
  · intro s h1 h2
    rw [nsec_to_hex, bech32_decode, if_pos ⟨h1, h2⟩]
  · intro s hcase hpos
    rw [nsec_to_hex, bech32_decode,
      if_neg (fun hcontr => hcase.elim (fun hl => hcontr.1 hl) (fun hu => hcontr.2 hu))]
    simp only [List.length_map]
    cases hr : rfindOne (s.map Char.toLower) with
    | none => rfl
    | some pos =>
      dsimp only
      rw [if_pos (hpos pos hr)]
  · intro s pos hcase hr hgood hbadchar
    rw [nsec_to_hex, bech32_decode,
      if_neg (fun hcontr => hcase.elim (fun hl => hcontr.1 hl) (fun hu => hcontr.2 hu))]
    simp only [List.length_map]
    rw [hr]
    dsimp only
    rw [if_neg hgood, if_pos hbadchar]
  · intro s hrp data hdec hne
    rw [nsec_to_hex, hdec]
    dsimp only
    rw [if_neg hne]
  · intro s hrp data hdec heq
    rw [nsec_to_hex, hdec]
    dsimp only
    rw [if_pos heq]
  · intro p d1 d2 hp hl1 hl2 ha1 ha2
    rw [nsec_to_hex, nsec_to_hex, bech32_decode_append_alpha p d1 hp hl1 ha1,
      bech32_decode_append_alpha p d2 hp hl2 ha2]

/-- C7 witness: two concrete inputs sharing everything but the final six
data characters decode identically (mixed-case, separator, charset and
hrp checks all pass; the differing checksum characters are ignored). -/
theorem c7_amended_witness :
    nsec_to_hex ("nsec1qq".toList ++ "qqqqqq".toList)
      = nsec_to_hex ("nsec1qq".toList ++ "pppppp".toList) :=
  c7_amended.2.2.2.2.2 ("nsec1qq".toList) ("qqqqqq".toList) ("pppppp".toList)
    (by decide) (by decide) (by decide) (by decide) (by decide)
